import Mathlib

/-
Verification development for the global-parser repository.

The Python sources are shallowly embedded:
  * `src/utils/fs_helpers.py` — `convert_to_raw_json` (the feed decoder) and
    `convert_to_nice_json` (the normalizer) are embedded as pure functions on
    the list of input lines / the list of decoded tournaments; Python strings
    are lists of characters wrapped in `String`, Python dicts with insertion
    order are association lists, and the decoder's dict that may or may not
    carry a `"results"` key is a structure with an `Option` field for it.
  * `src/utils/proxy_provider.py` — pool state is a `Finset` of endpoint
    strings plus the persisted file modelled as its list of lines; the
    threaded validation is modelled by a per-proxy check outcome function
    (set semantics make thread interleaving irrelevant).
  * `src/utils/session_manager.py` — `fetch_with_retry` is embedded as a
    recursion over the remaining attempt budget, with the network modelled
    by a function from attempt index to raw outcome and randomness by a
    function from attempt index to a draw index; the embedding also returns
    the list of per-attempt session proxies and the list of
    `mark_proxy_as_bad` calls so the retry policy can be inspected.
-/

namespace GP

/-- Characters treated as whitespace by Python's `str.strip()` (ASCII part). -/
def pyIsSpace (c : Char) : Bool :=
  c = ' ' || c = '\t' || c = '\n' || c = '\r' || c = '\x0b' || c = '\x0c'

/-- Python `line.strip()` on a character list. -/
def pyStrip (l : List Char) : List Char :=
  ((l.dropWhile pyIsSpace).reverse.dropWhile pyIsSpace).reverse

/-- Python `s.strip()` on a `String`. -/
def pyStripS (s : String) : String :=
  String.mk (pyStrip s.data)

/-- Python `line.split('÷')`: split on every occurrence of the separator. -/
def pySplit : List Char → List (List Char)
  | [] => [[]]
  | c :: cs =>
    if c = '÷' then [] :: pySplit cs
    else
      match pySplit cs with
      | [] => [[c]]
      | p :: rest => (c :: p) :: rest

/-- Python `line.startswith(pat)` on character lists. -/
def startsWithSeq : List Char → List Char → Bool
  | [], _ => true
  | _ :: _, [] => false
  | p :: ps, c :: cs => p = c && startsWithSeq ps cs

/-- The decoder's key extraction: `line.split('÷')[0].lstrip('~')`. -/
def keyOf (line : List Char) : String :=
  String.mk (((pySplit line).headD []).dropWhile (fun c => c = '~'))

/-- The decoder's value extraction: `line.split('÷')[1]`. -/
def valOf (line : List Char) : String :=
  String.mk ((pySplit line).getD 1 [])

/-- The tournament-level whitelist tuple of `convert_to_raw_json`. -/
def whitelistT : List String :=
  ["ZA", "ZEE", "ZB", "ZY", "ZC", "ZD", "ZE", "ZF",
   "ZO", "ZG", "ZH", "ZJ", "ZL", "OAJ", "ZX", "ZCC",
   "TSS", "ZAF", "ZK", "ZAC"]

/-- The exclusion tuple guarding the result-field assignment (whitelist plus `SA`). -/
def exclusionR : List String :=
  ["ZA", "ZEE", "ZB", "ZY", "ZC", "ZD", "ZE", "ZF",
   "ZO", "ZG", "ZH", "ZJ", "ZL", "OAJ", "ZX", "ZCC",
   "TSS", "ZAF", "SA", "ZK", "ZAC"]

/-- A decoded result record: a Python dict (insertion-ordered association list). -/
structure RawRes where
  fields : List (String × String)
deriving DecidableEq

/-- A decoded tournament record: scalar fields plus the `"results"` key, which
exists in the Python dict only once a result has been appended — hence `Option`. -/
structure RawTrn where
  fields : List (String × String)
  results : Option (List RawRes)
deriving DecidableEq

/-- Python dict assignment `d[k] = v` on an association list: update the value
in place if the key is present, otherwise append a new entry. -/
def setField : List (String × String) → String → String → List (String × String)
  | [], k, v => [(k, v)]
  | (k0, v0) :: rest, k, v =>
    if k0 = k then (k0, v) :: rest else (k0, v0) :: setField rest k v

/-- Python truthiness of the `current_tournament` dict: non-empty iff it has a
scalar field or the `"results"` key. -/
def trnTruthy (t : RawTrn) : Bool :=
  !t.fields.isEmpty || !t.results.isNone

/-- `current_tournament.setdefault("results", []).append(current_result)`. -/
def foldRes (t : RawTrn) (r : List (String × String)) : RawTrn :=
  { t with results := some ((t.results.getD []) ++ [⟨r⟩]) }

/-- The loop state of `convert_to_raw_json`. -/
structure DecState where
  tournaments : List RawTrn
  current : RawTrn
  currentResult : List (String × String)
deriving DecidableEq

/-- Initial loop state: `tournaments = []`, `current_tournament = {}`,
`current_result = {}`. -/
def initState : DecState :=
  ⟨[], ⟨[], none⟩, []⟩

/-- One iteration of the `convert_to_raw_json` line loop. -/
def stepLine (s : DecState) (raw : String) : DecState :=
  let line := pyStrip raw.data
  if line.isEmpty then s
  else if '÷' ∉ line then s
  else
    let s1 :=
      if startsWithSeq ("~ZA".data) line then
        if trnTruthy s.current then
          let cur2 := if s.currentResult.isEmpty then s.current
                      else foldRes s.current s.currentResult
          { tournaments := s.tournaments ++ [cur2]
            current := ⟨[], none⟩
            currentResult := [] }
        else s
      else s
    let key := keyOf line
    let v := valOf line
    let s2 :=
      if key ∈ whitelistT then
        { s1 with current := { s1.current with fields := setField s1.current.fields key v } }
      else s1
    let s3 :=
      if startsWithSeq ("~AA".data) line then
        if s2.currentResult.isEmpty then s2
        else { s2 with current := foldRes s2.current s2.currentResult, currentResult := [] }
      else s2
    if key ∈ exclusionR then s3
    else { s3 with currentResult := setField s3.currentResult key v }

/-- The flush after the loop: fold a pending result and append the pending
tournament, when non-empty. -/
def finishState (s : DecState) : List RawTrn :=
  if trnTruthy s.current then
    let cur2 := if s.currentResult.isEmpty then s.current
                else foldRes s.current s.currentResult
    s.tournaments ++ [cur2]
  else s.tournaments

/-- The decoder of `fs_helpers.convert_to_raw_json`, as a function from the
input lines to the list of decoded tournaments (the JSON written out). -/
def convert_to_raw_json (lines : List String) : List RawTrn :=
  finishState (lines.foldl stepLine initState)

/-- Decimal digit run, as parsed by Python `int`. -/
def parseNatChars : List Char → Option Nat
  | [] => none
  | l => go l 0
where
  go : List Char → Nat → Option Nat
    | [], acc => some acc
    | c :: cs, acc =>
      if c.isDigit then go cs (acc * 10 + (c.toNat - '0'.toNat)) else none

/-- Python `int(s)` on a trimmed numeric literal: an optional sign followed by
digits; anything else raises `ValueError`. -/
def parseIntChars : List Char → Option Int
  | '-' :: rest => (parseNatChars rest).map (fun n => -(n : Int))
  | '+' :: rest => (parseNatChars rest).map (fun n => (n : Int))
  | l => (parseNatChars l).map (fun n => (n : Int))

/-- `helpers.to_int_or_none`: `None`/empty give `None`, otherwise parse an
integer, with unparsable input giving `None` (the swallowed `ValueError`). -/
def to_int_or_none (v : Option String) : Option Int :=
  match v with
  | none => none
  | some s => if s = "" then none else parseIntChars s.data

/-- A normalized result record (the dict built per result in
`convert_to_nice_json`). -/
structure NiceRes where
  game_src_id : Option String
  game_ts : Option Int
  game_end : String
  home_src_id : Option String
  away_src_id : Option String
  home_name : Option String
  away_name : Option String
  home_slug : Option String
  away_slug : Option String
  home_abbr : Option String
  away_abbr : Option String
  home_score : Option Int
  away_score : Option Int
  home_q1 : Option Int
  home_q2 : Option Int
  home_q3 : Option Int
  home_q4 : Option Int
  home_ot1 : Option Int
  home_ot2 : Option Int
  away_q1 : Option Int
  away_q2 : Option Int
  away_q3 : Option Int
  away_q4 : Option Int
  away_ot1 : Option Int
  away_ot2 : Option Int
  home_logo : Option String
  away_logo : Option String
deriving DecidableEq

/-- A normalized tournament record. -/
structure NiceTrn where
  area_src_id : Option String
  area_name : Option String
  tourney_src_id : Option String
  tourney_name : Option String
  tourney_code : Option String
  tourney_url : Option String
  tourney_logo : Option String
  tourney_status : Option String
  results : List NiceRes
deriving DecidableEq

/-- The per-result mapping of `convert_to_nice_json` (`raw_res.get(...)`). -/
def normalizeRes (r : RawRes) : NiceRes :=
  { game_src_id := r.fields.lookup "AA"
    game_ts := to_int_or_none (r.fields.lookup "AD")
    game_end := if r.fields.lookup "AC" = some "10" then "overtime" else "standard"
    home_src_id := r.fields.lookup "PX"
    away_src_id := r.fields.lookup "PY"
    home_name := r.fields.lookup "AE"
    away_name := r.fields.lookup "AF"
    home_slug := r.fields.lookup "WU"
    away_slug := r.fields.lookup "WV"
    home_abbr := r.fields.lookup "WM"
    away_abbr := r.fields.lookup "WN"
    home_score := to_int_or_none (r.fields.lookup "AG")
    away_score := to_int_or_none (r.fields.lookup "AH")
    home_q1 := to_int_or_none (r.fields.lookup "BA")
    home_q2 := to_int_or_none (r.fields.lookup "BC")
    home_q3 := to_int_or_none (r.fields.lookup "BE")
    home_q4 := to_int_or_none (r.fields.lookup "BG")
    home_ot1 := to_int_or_none (r.fields.lookup "BI")
    home_ot2 := to_int_or_none (r.fields.lookup "BK")
    away_q1 := to_int_or_none (r.fields.lookup "BB")
    away_q2 := to_int_or_none (r.fields.lookup "BD")
    away_q3 := to_int_or_none (r.fields.lookup "BF")
    away_q4 := to_int_or_none (r.fields.lookup "BH")
    away_ot1 := to_int_or_none (r.fields.lookup "BJ")
    away_ot2 := to_int_or_none (r.fields.lookup "BL")
    home_logo := r.fields.lookup "OA"
    away_logo := r.fields.lookup "OB" }

/-- The per-tournament mapping of `convert_to_nice_json`: the scalar fields use
`raw.get`, but the results use the raising access `raw['results']`, which is a
`KeyError` when the decoder never created the key. -/
def normalizeTrn (t : RawTrn) : Except String NiceTrn :=
  match t.results with
  | none => .error "KeyError: results"
  | some rs =>
    .ok { area_src_id := t.fields.lookup "ZB"
          area_name := t.fields.lookup "ZY"
          tourney_src_id := t.fields.lookup "ZEE"
          tourney_name := t.fields.lookup "ZA"
          tourney_code := t.fields.lookup "ZAC"
          tourney_url := t.fields.lookup "ZL"
          tourney_logo := t.fields.lookup "OAJ"
          tourney_status := t.fields.lookup "ZCC"
          results := rs.map normalizeRes }

/-- The normalizer of `fs_helpers.convert_to_nice_json` over the decoded list;
an uncaught `KeyError` aborts the whole conversion before any output is written,
hence `Except` over the whole list. -/
def convert_to_nice_json : List RawTrn → Except String (List NiceTrn)
  | [] => .ok []
  | t :: ts =>
    match normalizeTrn t with
    | .error e => .error e
    | .ok nt =>
      match convert_to_nice_json ts with
      | .error e => .error e
      | .ok nts => .ok (nt :: nts)

/-- The proxies dict attached to a `requests.Session` (keys `"http"`/`"https"`,
each possibly absent). -/
structure ProxyDict where
  http : Option String
  https : Option String
deriving DecidableEq

/-- The dict built by `get_random_proxy` for an endpoint `p`. -/
def httpProxyDict (p : String) : ProxyDict :=
  ⟨some ("http://" ++ p), some ("http://" ++ p)⟩

/-- Python `s.replace("http://", "")`: delete every occurrence, scanning left
to right. -/
def stripHttpChars : List Char → List Char
  | 'h' :: 't' :: 't' :: 'p' :: ':' :: '/' :: '/' :: rest => stripHttpChars rest
  | c :: rest => c :: stripHttpChars rest
  | [] => []

/-- The `ProxyProvider` state: the in-memory validated set and the contents of
`valid_proxies.txt` (one line per list element) as its stable storage. -/
structure PPState where
  valid_proxies : Finset String
  valid_file : List String
deriving DecidableEq

/-- `ProxyProvider.mark_proxy_as_bad`: extract `ip:port` from the dict's
`"http"` entry and discard it from the validated set; a missing key or an
absent member is a no-op, and the file is never touched. -/
def mark_proxy_as_bad (st : PPState) (d : ProxyDict) : PPState :=
  match d.http with
  | none => st
  | some s =>
    let addr := String.mk (stripHttpChars s.data)
    if addr ∈ st.valid_proxies then
      { st with valid_proxies := st.valid_proxies.erase addr }
    else st

/-- `ProxyProvider.get_random_proxy`: none on an empty pool, otherwise a draw
from the set (`random.choice` modelled by an arbitrary index `k` into the
set's enumeration). -/
def get_random_proxy (st : PPState) (k : Nat) : Option ProxyDict :=
  let l := st.valid_proxies.sort (· ≤ ·)
  (l.get? (k % l.length)).map httpProxyDict

/-- `ProxyProvider._load_proxies_from_file`: strip each line and drop blanks. -/
def load_proxies (file : List String) : List String :=
  (file.map pyStripS).filter (fun l => l ≠ "")

/-- `ProxyProvider._run_validation`, with each proxy's health-check outcome
given by `ok` (thread interleaving is irrelevant to the resulting set). -/
def run_validation (ok : String → Bool) (l : List String) : Finset String :=
  (l.filter ok).toFinset

/-- The validated set reached by the end of `ProxyProvider.initialize`:
re-validate the proxies persisted in `valid_file` (steps 1), then validate the
new candidates minus the already-valid ones and union the survivors in
(step 2). -/
def poolInitValid (st : PPState) (newFile : List String) (ok : String → Bool) : Finset String :=
  let existing := load_proxies st.valid_file
  let v1 := if existing = [] then st.valid_proxies else run_validation ok existing
  let newProxies := load_proxies newFile
  if newProxies = [] then v1
  else
    let toCheck := newProxies.toFinset \ v1
    if toCheck = ∅ then v1
    else v1 ∪ run_validation ok (toCheck.sort (· ≤ ·))

/-- `ProxyProvider.initialize`: compute the validated set, then save — where
`_save_valid_proxies` returns early on an empty set, leaving the file as it
was, and otherwise rewrites it with the sorted members. -/
def poolInit (st : PPState) (newFile : List String) (ok : String → Bool) : PPState :=
  let v2 := poolInitValid st newFile ok
  ⟨v2, if v2 = ∅ then st.valid_file else v2.sort (· ≤ ·)⟩

/-- The exception classes of an attempt's raw failure, as caught by
`fetch_with_retry`: the first six are the retryable tuple, the last stands for
any other `RequestException`. -/
inductive ExcKind
  | proxyError
  | connectTimeout
  | readTimeout
  | sslError
  | chunkedEncodingError
  | connectionError
  | otherRequestError
deriving DecidableEq

/-- Membership in the retryable `except` tuple. -/
def excRetryable : ExcKind → Bool
  | .otherRequestError => false
  | _ => true

/-- A display name for the exception, used as the carried failure cause. -/
def excName : ExcKind → String
  | .proxyError => "ProxyError"
  | .connectTimeout => "ConnectTimeout"
  | .readTimeout => "ReadTimeout"
  | .sslError => "SSLError"
  | .chunkedEncodingError => "ChunkedEncodingError"
  | .connectionError => "ConnectionError"
  | .otherRequestError => "RequestException"

/-- An HTTP response: status code and body text. -/
structure HttpResponse where
  status : Nat
  body : String
deriving DecidableEq

/-- The raw outcome of one `session.request` call: a response, or a raised
exception. -/
inductive RawOutcome
  | resp (r : HttpResponse)
  | exc (e : ExcKind)
deriving DecidableEq

/-- How one attempt's body classifies its outcome: `raise_for_status` turns a
4xx/5xx status into an `HTTPError` (not in the retryable tuple), a
blank-after-strip body raises the synthetic retryable `ConnectionError`, and a
raised exception is retryable iff it is in the six-class tuple. -/
inductive StepClass
  | ok (r : HttpResponse)
  | retry (cause : String)
  | fatal (cause : String)
deriving DecidableEq

/-- Classification of a raw outcome by the `try` body of `fetch_with_retry`. -/
def classify : RawOutcome → StepClass
  | .resp r =>
    if 400 ≤ r.status then .fatal "HTTPError"
    else if String.mk (pyStrip r.body.data) = "" then
      .retry "Received an empty response body. Retrying with a different proxy."
    else .ok r
  | .exc e => if excRetryable e then .retry (excName e) else .fatal (excName e)

/-- The result of `fetch_with_retry`: a returned response, an immediately
re-raised non-retryable exception, or the terminal `RuntimeError` carrying the
last observed failure cause. -/
inductive FetchResult
  | success (r : HttpResponse)
  | fatalErr (cause : String)
  | exhausted (last : Option String)
deriving DecidableEq

/-- The attempt loop of `fetch_with_retry`, recursing on the remaining attempt
budget: per attempt, build a session (`get_session` attaches a proxy only when
`get_random_proxy` returns one), issue the request, and dispatch on the
classification — marking the proxy bad (when the session has a truthy
`"http"` entry) and continuing on a retryable failure. Besides the result it
returns the per-attempt session `"http"` proxies as issued and the arguments
of the `mark_proxy_as_bad` calls, in order. -/
def fetchAux (env : Nat → RawOutcome) (ks : Nat → Nat) :
    Nat → Nat → PPState → Option String →
    FetchResult × List (Option String) × List ProxyDict
  | 0, _, _, last => (.exhausted last, [], [])
  | n + 1, i, st, _last =>
    let sessionProxies : ProxyDict :=
      match get_random_proxy st (ks i) with
      | some d => d
      | none => ⟨none, none⟩
    let current_proxy := sessionProxies.http
    match classify (env i) with
    | .ok r => (.success r, [current_proxy], [])
    | .fatal c => (.fatalErr c, [current_proxy], [])
    | .retry c =>
      let doMark : Bool := match current_proxy with
        | some s => s != ""
        | none => false
      let st2 := if doMark then mark_proxy_as_bad st sessionProxies else st
      let marks0 : List ProxyDict := if doMark then [sessionProxies] else []
      let out := fetchAux env ks n (i + 1) st2 (some c)
      (out.1, current_proxy :: out.2.1, marks0 ++ out.2.2)

/-- `SessionManager.fetch_with_retry`, for a pool state `st`, network model
`env` and draw indices `ks`. -/
def fetch_with_retry (max_retries : Nat) (st : PPState) (env : Nat → RawOutcome)
    (ks : Nat → Nat) : FetchResult × List (Option String) × List ProxyDict :=
  fetchAux env ks max_retries 0 st none

/-- A line that the decoder either skips (blank, or separator-free) or whose
key is in the tournament whitelist — i.e. a tournament-level line. -/
def tournamentLevelOnly (raw : String) : Prop :=
  ¬(pyStrip raw.data).isEmpty = true → '÷' ∈ pyStrip raw.data →
    keyOf (pyStrip raw.data) ∈ whitelistT

instance (raw : String) : Decidable (tournamentLevelOnly raw) := by
  unfold tournamentLevelOnly
  infer_instance

/-- A decoder state in which no result dict has ever been created: the pending
result dict is empty, and neither the current tournament nor any sealed one
carries a `"results"` key. -/
def resultsFreeState (s : DecState) : Prop :=
  s.currentResult = [] ∧ s.current.results = none ∧
    ∀ t ∈ s.tournaments, t.results = none

/-- The decoder loop state instrumented with opening-line indices: each sealed
tournament is paired with the index of the line that opened its region, and
`openIdx` is the index of the boundary line that opened the current region
(0 for the region running from the start of the input). -/
structure DecStateI where
  tournaments : List (Nat × RawTrn)
  openIdx : Nat
  current : RawTrn
  currentResult : List (String × String)
deriving DecidableEq

/-- Initial instrumented state. -/
def initStateI : DecStateI :=
  ⟨[], 0, ⟨[], none⟩, []⟩

/-- The instrumented line loop: identical to `stepLine` except that the sealed
tournament is paired with its opening index and every `~ZA`-boundary line
records its own index as the opening index of the new region. -/
def stepLineI (i : Nat) (s : DecStateI) (raw : String) : DecStateI :=
  let line := pyStrip raw.data
  if line.isEmpty then s
  else if '÷' ∉ line then s
  else
    let s1 :=
      if startsWithSeq ("~ZA".data) line then
        if trnTruthy s.current then
          let cur2 := if s.currentResult.isEmpty then s.current
                      else foldRes s.current s.currentResult
          { tournaments := s.tournaments ++ [(s.openIdx, cur2)]
            openIdx := i
            current := ⟨[], none⟩
            currentResult := [] }
        else { s with openIdx := i }
      else s
    let key := keyOf line
    let v := valOf line
    let s2 :=
      if key ∈ whitelistT then
        { s1 with current := { s1.current with fields := setField s1.current.fields key v } }
      else s1
    let s3 :=
      if startsWithSeq ("~AA".data) line then
        if s2.currentResult.isEmpty then s2
        else { s2 with current := foldRes s2.current s2.currentResult, currentResult := [] }
      else s2
    if key ∈ exclusionR then s3
    else { s3 with currentResult := setField s3.currentResult key v }

/-- Fold of the instrumented loop over the lines, threading the line index. -/
def foldIAux : Nat → DecStateI → List String → DecStateI
  | _, s, [] => s
  | i, s, l :: ls => foldIAux (i + 1) (stepLineI i s l) ls

/-- The instrumented flush after the loop. -/
def finishI (s : DecStateI) : List (Nat × RawTrn) :=
  if trnTruthy s.current then
    let cur2 := if s.currentResult.isEmpty then s.current
                else foldRes s.current s.currentResult
    s.tournaments ++ [(s.openIdx, cur2)]
  else s.tournaments

/-- The decoder output with each tournament paired with the index of the line
that opened its region. -/
def decodeIdx (lines : List String) : List (Nat × RawTrn) :=
  finishI (foldIAux 0 initStateI lines)

/-- Forget the instrumentation. -/
def projI (s : DecStateI) : DecState :=
  ⟨s.tournaments.map Prod.snd, s.current, s.currentResult⟩

/-- Line `j` of the input is a tournament-boundary line (starts with `~ZA`
after stripping). -/
def zaBoundary (lines : List String) (j : Nat) : Prop :=
  ∃ raw, lines.get? j = some raw ∧
    startsWithSeq ("~ZA".data) (pyStrip raw.data) = true

/-- Invariant of the instrumented loop after processing lines `0..i-1`:
opening indices of sealed tournaments are strictly increasing and all precede
the current region's opening index, which is itself a processed boundary line
(or 0, for the initial region). -/
def idxInv (lines : List String) (i : Nat) (s : DecStateI) : Prop :=
  List.Chain' (· < ·) ((s.tournaments.map Prod.fst) ++ [s.openIdx]) ∧
  (s.openIdx = 0 ∨ s.openIdx < i) ∧
  (i = 0 → trnTruthy s.current = false) ∧
  (∀ p ∈ s.tournaments, p.1 = 0 ∨ zaBoundary lines p.1) ∧
  (s.openIdx = 0 ∨ zaBoundary lines s.openIdx)

/-- Splitting distributes over the first separator when the part before it is
separator-free. -/
theorem pySplit_append (c t : List Char) (hc : '÷' ∉ c) :
    pySplit (c ++ '÷' :: t) = c :: pySplit t := by
  induction c with
  | nil => simp [pySplit]
  | cons x xs ih =>
    have hx : x ≠ '÷' := by
      intro h; exact hc (by simp [h])
    have hxs : '÷' ∉ xs := fun h => hc (List.mem_cons_of_mem _ h)
    simp only [List.cons_append, pySplit, if_neg hx, List.append_eq, ih hxs]

/-- A separator-free list does not split. -/
theorem pySplit_nosep (a : List Char) (ha : '÷' ∉ a) : pySplit a = [a] := by
  induction a with
  | nil => rfl
  | cons x xs ih =>
    have hx : x ≠ '÷' := by
      intro h; exact ha (by simp [h])
    have hxs : '÷' ∉ xs := fun h => ha (List.mem_cons_of_mem _ h)
    simp only [pySplit, if_neg hx, ih hxs]

/-- C2: on the concrete 8-line feed, the decoder produces exactly one
tournament `{ZA: Champions, ZB: 10}` with the two expected results, and the
normalizer maps it to `tourney_name = Champions`, `area_src_id = 10`, with
result 1 `(g1, 1690000000, standard)` and result 2 `(g2, 1690003600,
overtime)`. -/
theorem c2_decode_and_normalize :
    convert_to_raw_json
        ["~ZA÷Champions", "~ZB÷10", "~AA÷g1", "~AD÷1690000000", "~AC÷5",
         "~AA÷g2", "~AD÷1690003600", "~AC÷10"] =
      [⟨[("ZA", "Champions"), ("ZB", "10")],
        some [⟨[("AA", "g1"), ("AD", "1690000000"), ("AC", "5")]⟩,
              ⟨[("AA", "g2"), ("AD", "1690003600"), ("AC", "10")]⟩]⟩] ∧
    convert_to_nice_json
        (convert_to_raw_json
          ["~ZA÷Champions", "~ZB÷10", "~AA÷g1", "~AD÷1690000000", "~AC÷5",
           "~AA÷g2", "~AD÷1690003600", "~AC÷10"]) =
      .ok [⟨some "10", none, none, some "Champions", none, none, none, none,
            [⟨some "g1", some 1690000000, "standard",
              none, none, none, none, none, none, none, none,
              none, none, none, none, none, none, none, none,
              none, none, none, none, none, none, none, none⟩,
             ⟨some "g2", some 1690003600, "overtime",
              none, none, none, none, none, none, none, none,
              none, none, none, none, none, none, none, none,
              none, none, none, none, none, none, none, none⟩]⟩] := by
  exact ⟨by decide, by rfl⟩

/-- C3 counterexample: the line `~ZA÷a÷b` stores value `"a"`, not everything
after the first separator (`"a÷b"`): the decoder truncates at the second
separator. -/
theorem c3_counterexample :
    convert_to_raw_json ["~ZA÷a÷b"] = [⟨[("ZA", "a")], none⟩] ∧
    convert_to_raw_json ["~ZA÷a÷b"] ≠ [⟨[("ZA", "a÷b")], none⟩] ∧
    ("a" : String) ≠ "a÷b" := by
  refine ⟨by decide, by decide, by decide⟩

/-- C3 amended: the stored VALUE is the substring strictly between the first
and the second separator (`line.split(SEP)[1]`); further separator characters
cause truncation of the value rather than being kept. -/
theorem c3_amended (c a r : List Char) (hc : '÷' ∉ c) (ha : '÷' ∉ a) :
    valOf (c ++ ('÷' :: (a ++ ('÷' :: r)))) = String.mk a ∧
    valOf (c ++ ('÷' :: a)) = String.mk a := by
  constructor
  · show String.mk ((pySplit (c ++ ('÷' :: (a ++ ('÷' :: r))))).getD 1 []) = String.mk a
    rw [pySplit_append c _ hc, pySplit_append a r ha]
    rfl
  · show String.mk ((pySplit (c ++ ('÷' :: a))).getD 1 []) = String.mk a
    rw [pySplit_append c a hc, pySplit_nosep a ha]
    rfl

/-- C3 amended, witnessed at the line `~ZA÷a÷b`: the stored value is `"a"`. -/
theorem c3_amended_witness :
    ('÷' ∉ ("~ZA".data)) ∧ ('÷' ∉ ['a']) ∧
    valOf ("~ZA".data ++ ('÷' :: (['a'] ++ ('÷' :: ['b'])))) = String.mk ['a'] :=
  ⟨by decide, by decide, (c3_amended ("~ZA".data) ['a'] ['b'] (by decide) (by decide)).1⟩

/-- C9: the tournament-boundary test is a `startswith("~ZA")` check, so it
also fires on `~ZAC`/`~ZAF` lines: such a line after an open tournament seals
it and starts a fresh record carrying the `ZAC`/`ZAF` field, splitting the
tournament in two instead of adding the field to the current record. -/
theorem c9_boundary_matches_zac_zaf :
    (∀ rest : List Char,
      startsWithSeq ("~ZA".data) ('~' :: 'Z' :: 'A' :: 'C' :: rest) = true) ∧
    (∀ rest : List Char,
      startsWithSeq ("~ZA".data) ('~' :: 'Z' :: 'A' :: 'F' :: rest) = true) ∧
    convert_to_raw_json ["~ZA÷T1", "~ZAC÷c1"] =
      [⟨[("ZA", "T1")], none⟩, ⟨[("ZAC", "c1")], none⟩] ∧
    convert_to_raw_json ["~ZA÷T1", "~ZB÷9", "~ZAF÷f"] =
      [⟨[("ZA", "T1"), ("ZB", "9")], none⟩, ⟨[("ZAF", "f")], none⟩] := by
  refine ⟨fun rest => rfl, fun rest => rfl, by decide, by decide⟩

/-- A drawn proxy of a non-empty pool is a member of the pool. -/
theorem get_random_proxy_of_ne (st : PPState) (k : Nat) (h : st.valid_proxies ≠ ∅) :
    ∃ p ∈ st.valid_proxies, get_random_proxy st k = some (httpProxyDict p) := by
  have hlen : (st.valid_proxies.sort (· ≤ ·)).length = st.valid_proxies.card :=
    Finset.length_sort _
  have hcard : 0 < st.valid_proxies.card :=
    Finset.card_pos.mpr (Finset.nonempty_iff_ne_empty.mpr h)
  have hlt : k % (st.valid_proxies.sort (· ≤ ·)).length <
      (st.valid_proxies.sort (· ≤ ·)).length :=
    Nat.mod_lt _ (by omega)
  refine ⟨(st.valid_proxies.sort (· ≤ ·)).get ⟨_, hlt⟩, ?_, ?_⟩
  · rw [← Finset.mem_sort (α := String) (· ≤ ·)]
    exact List.get_mem _ _ _
  · show Option.map httpProxyDict
        ((st.valid_proxies.sort (· ≤ ·)).get?
          (k % (st.valid_proxies.sort (· ≤ ·)).length)) = _
    rw [List.get?_eq_get hlt]
    rfl

/-- Inversion for `get_random_proxy`: a returned dict is built from a pool
member. -/
theorem get_random_proxy_mem (st : PPState) (k : Nat) (d : ProxyDict)
    (h : get_random_proxy st k = some d) :
    ∃ q ∈ st.valid_proxies, d = httpProxyDict q := by
  simp only [get_random_proxy] at h
  rw [Option.map_eq_some'] at h
  obtain ⟨q, hq, hfq⟩ := h
  refine ⟨q, ?_, hfq.symm⟩
  rw [← Finset.mem_sort (α := String) (· ≤ ·)]
  exact List.get?_mem hq

/-- An empty pool yields no proxy. -/
theorem get_random_proxy_empty (st : PPState) (k : Nat) (h : st.valid_proxies = ∅) :
    get_random_proxy st k = none := by
  unfold get_random_proxy
  rw [h, Finset.sort_empty]
  rfl

/-- The endpoint string of a built proxy dict is never the empty (falsy)
string. -/
theorem http_ne_empty (p : String) : ("http://" ++ p) ≠ "" := by
  intro h
  have hd : ("http://" ++ p).data = ("" : String).data := congrArg String.data h
  rw [String.data_append] at hd
  have h2 := List.append_eq_nil.mp hd
  exact absurd h2.1 (by decide)

/-- Building a proxy dict from an endpoint is injective. -/
theorem httpProxyDict_inj (p q : String) (h : httpProxyDict p = httpProxyDict q) :
    p = q := by
  have h1 : some ("http://" ++ p) = some ("http://" ++ q) :=
    congrArg ProxyDict.http h
  have h2 : "http://" ++ p = "http://" ++ q := Option.some.inj h1
  have h3 : ("http://" ++ p).data = ("http://" ++ q).data := congrArg String.data h2
  rw [String.data_append, String.data_append] at h3
  have h4 := List.append_cancel_left h3
  cases p with
  | mk dp =>
    cases q with
    | mk dq => exact congrArg String.mk h4

/-- C8: `mark_proxy_as_bad` is an idempotent removal: applying it twice equals
applying it once, stable storage (the persisted file) is never written, the
resulting set is the original set minus the dict's endpoint, and a removed
proxy is never returned by a later `get_random_proxy` on the same state. The
embedding is a total function, matching the code's guarded accesses that can
never raise. -/
theorem c8_mark_bad (st : PPState) (d : ProxyDict) :
    mark_proxy_as_bad (mark_proxy_as_bad st d) d = mark_proxy_as_bad st d ∧
    (mark_proxy_as_bad st d).valid_file = st.valid_file ∧
    (∀ p : String, d = httpProxyDict p →
      String.mk (stripHttpChars ("http://" ++ p).data) = p →
      (mark_proxy_as_bad st d).valid_proxies = st.valid_proxies.erase p ∧
      ∀ k d2, get_random_proxy (mark_proxy_as_bad st d) k = some d2 → d2 ≠ d) := by
  refine ⟨?_, ?_, ?_⟩
  · cases hd : d.http with
    | none => simp [mark_proxy_as_bad, hd]
    | some s =>
      by_cases hm : String.mk (stripHttpChars s.data) ∈ st.valid_proxies
      · simp [mark_proxy_as_bad, hd, hm, Finset.not_mem_erase]
      · simp [mark_proxy_as_bad, hd, hm]
  · cases hd : d.http with
    | none => simp [mark_proxy_as_bad, hd]
    | some s =>
      by_cases hm : String.mk (stripHttpChars s.data) ∈ st.valid_proxies
      · simp [mark_proxy_as_bad, hd, hm]
      · simp [mark_proxy_as_bad, hd, hm]
  · intro p hdp hstrip
    subst hdp
    have key : mark_proxy_as_bad st (httpProxyDict p) =
        { st with valid_proxies := st.valid_proxies.erase p } := by
      show (if String.mk (stripHttpChars ("http://" ++ p).data) ∈ st.valid_proxies then
              { st with valid_proxies :=
                  st.valid_proxies.erase (String.mk (stripHttpChars ("http://" ++ p).data)) }
            else st) =
          { st with valid_proxies := st.valid_proxies.erase p }
      rw [hstrip]
      by_cases hm : p ∈ st.valid_proxies
      · rw [if_pos hm]
      · rw [if_neg hm, Finset.erase_eq_of_not_mem hm]
    refine ⟨by rw [key], ?_⟩
    intro k d2 hk hcontra
    subst hcontra
    rw [key] at hk
    obtain ⟨q, hqm, hq⟩ := get_random_proxy_mem _ k _ hk
    have hqp : p = q := httpProxyDict_inj p q hq
    rw [← hqp] at hqm
    exact Finset.not_mem_erase p _ hqm

/-- C8 witness: a singleton pool and its own well-formed dict. -/
theorem c8_mark_bad_witness :
    (httpProxyDict "1.2.3.4:80" = httpProxyDict "1.2.3.4:80") ∧
    String.mk (stripHttpChars ("http://" ++ "1.2.3.4:80").data) = "1.2.3.4:80" ∧
    (mark_proxy_as_bad ⟨{"1.2.3.4:80"}, []⟩ (httpProxyDict "1.2.3.4:80")).valid_proxies =
      ({"1.2.3.4:80"} : Finset String).erase "1.2.3.4:80" :=
  ⟨rfl, by decide,
    ((c8_mark_bad ⟨{"1.2.3.4:80"}, []⟩ (httpProxyDict "1.2.3.4:80")).2.2
      "1.2.3.4:80" rfl (by decide)).1⟩

/-- C6 counterexample: an `initialize()` run in which every proxy fails the
health check ends with an empty validated set, but the validated-proxies file
still holds its stale previous contents — it is not rewritten for the empty
set. -/
theorem c6_counterexample :
    (poolInit ⟨∅, ["1.1.1.1:80"]⟩ [] (fun _ => false)).valid_proxies = ∅ ∧
    (poolInit ⟨∅, ["1.1.1.1:80"]⟩ [] (fun _ => false)).valid_file = ["1.1.1.1:80"] ∧
    (poolInit ⟨∅, ["1.1.1.1:80"]⟩ [] (fun _ => false)).valid_file ≠
      Finset.sort (· ≤ ·)
        (poolInit ⟨∅, ["1.1.1.1:80"]⟩ [] (fun _ => false)).valid_proxies := by
  refine ⟨by decide, by decide, ?_⟩
  have h1 : (poolInit ⟨∅, ["1.1.1.1:80"]⟩ [] (fun _ => false)).valid_proxies = ∅ := by
    decide
  rw [h1, Finset.sort_empty]
  decide

/-- C6 amended: after `initialize()`, the validated-proxies file holds exactly
the members of the validated set, one per line in sorted order, whenever that
set is non-empty; when the resulting set is empty the save step returns early
and the file keeps its previous contents. -/
theorem c6_amended (st : PPState) (newFile : List String) (ok : String → Bool) :
    ((poolInit st newFile ok).valid_proxies ≠ ∅ →
      (poolInit st newFile ok).valid_file =
        Finset.sort (· ≤ ·) (poolInit st newFile ok).valid_proxies) ∧
    ((poolInit st newFile ok).valid_proxies = ∅ →
      (poolInit st newFile ok).valid_file = st.valid_file) := by
  have hv : (poolInit st newFile ok).valid_proxies = poolInitValid st newFile ok := rfl
  have hf : (poolInit st newFile ok).valid_file =
      (if poolInitValid st newFile ok = ∅ then st.valid_file
       else Finset.sort (· ≤ ·) (poolInitValid st newFile ok)) := rfl
  constructor
  · intro hne
    rw [hv] at hne ⊢
    rw [hf, if_neg hne]
  · intro he
    rw [hv] at he
    rw [hf, if_pos he]

/-- C6 amended, witnessed on a run that validates a single proxy: the file is
rewritten to the sorted singleton. -/
theorem c6_amended_witness :
    (poolInit ⟨∅, ["1.1.1.1:80"]⟩ [] (fun _ => true)).valid_proxies ≠ ∅ ∧
    (poolInit ⟨∅, ["1.1.1.1:80"]⟩ [] (fun _ => true)).valid_file =
      Finset.sort (· ≤ ·)
        (poolInit ⟨∅, ["1.1.1.1:80"]⟩ [] (fun _ => true)).valid_proxies :=
  ⟨by decide, (c6_amended ⟨∅, ["1.1.1.1:80"]⟩ [] (fun _ => true)).1 (by decide)⟩

/-- The session's `"http"` entry equals the drawn proxy's, with no proxy
attached when the draw comes back empty. -/
theorem session_http_eq (o : Option ProxyDict) :
    (match o with
      | some d => d
      | none => (⟨none, none⟩ : ProxyDict)).http = o.bind ProxyDict.http := by
  cases o <;> rfl

/-- C1 counterexample: a singleton pool, a retryable failure on attempt 1
(which evicts the only proxy) and a good response on attempt 2 — attempt 2 is
still issued, with no proxy on its session, and its response is returned. -/
theorem c1_counterexample :
    (fetch_with_retry 2 ⟨{"1.2.3.4:80"}, []⟩
        (fun i => if i = 0 then RawOutcome.exc .proxyError else .resp ⟨200, "x"⟩)
        (fun _ => 0)).2.1 = [some "http://1.2.3.4:80", none] ∧
    (fetch_with_retry 2 ⟨{"1.2.3.4:80"}, []⟩
        (fun i => if i = 0 then RawOutcome.exc .proxyError else .resp ⟨200, "x"⟩)
        (fun _ => 0)).1 = .success ⟨200, "x"⟩ := by
  have hstrip : String.mk (stripHttpChars ("http://1.2.3.4:80" : String).data) =
      "1.2.3.4:80" := by decide
  simp [fetch_with_retry, fetchAux, get_random_proxy, Finset.sort_singleton,
    httpProxyDict, classify, excRetryable, excName, mark_proxy_as_bad, hstrip,
    Finset.erase_singleton, Finset.sort_empty]
  decide

/-- C1 amended: a session carries a proxy drawn from the validated pool
whenever the pool is non-empty at session creation; once evictions have
emptied the pool, `get_random_proxy` returns none, the session has no proxy
attached, and `fetch_with_retry` still issues the attempt through it. -/
theorem c1_amended (st : PPState) (k : Nat) :
    (st.valid_proxies ≠ ∅ →
      ∃ p ∈ st.valid_proxies, get_random_proxy st k = some (httpProxyDict p)) ∧
    (st.valid_proxies = ∅ → get_random_proxy st k = none) ∧
    (∀ mr env ks, 0 < mr → ∃ rest,
      (fetch_with_retry mr st env ks).2.1 =
        ((get_random_proxy st (ks 0)).bind ProxyDict.http) :: rest) := by
  refine ⟨get_random_proxy_of_ne st k, get_random_proxy_empty st k, ?_⟩
  intro mr env ks hmr
  obtain ⟨m, rfl⟩ : ∃ m, mr = m + 1 := ⟨mr - 1, by omega⟩
  show ∃ rest, (fetchAux env ks (m + 1) 0 st none).2.1 = _
  cases hcl : classify (env 0) with
  | ok r =>
    simp only [fetchAux, hcl, session_http_eq]
    exact ⟨[], rfl⟩
  | fatal c =>
    simp only [fetchAux, hcl, session_http_eq]
    exact ⟨[], rfl⟩
  | retry c =>
    simp only [fetchAux, hcl, session_http_eq]
    exact ⟨_, rfl⟩

/-- C1 amended, witnessed on a singleton pool. -/
theorem c1_amended_witness :
    (({"1.2.3.4:80"} : Finset String) ≠ ∅) ∧
    ∃ p ∈ ({"1.2.3.4:80"} : Finset String),
      get_random_proxy ⟨{"1.2.3.4:80"}, []⟩ 0 = some (httpProxyDict p) :=
  ⟨by decide, (c1_amended ⟨{"1.2.3.4:80"}, []⟩ 0).1 (by decide)⟩

/-- C4: with at least two attempts available and a non-empty pool, a retryable
failure on attempt 1 followed by a good response on attempt 2 yields exactly
one `mark_proxy_as_bad` call — on attempt 1's proxy dict — and attempt 2's
response is returned; while a non-retryable failure (such as the `HTTPError`
of a 4xx/5xx status) on attempt 1 propagates at once, with no
`mark_proxy_as_bad` call and no further attempt issued. -/
theorem c4_retry_policy (mr : Nat) (st : PPState) (env : Nat → RawOutcome)
    (ks : Nat → Nat) (hmr : 2 ≤ mr) (hpool : st.valid_proxies ≠ ∅) :
    (∀ c r, classify (env 0) = .retry c → classify (env 1) = .ok r →
      ∃ p ∈ st.valid_proxies,
        get_random_proxy st (ks 0) = some (httpProxyDict p) ∧
        (fetch_with_retry mr st env ks).1 = .success r ∧
        (fetch_with_retry mr st env ks).2.2 = [httpProxyDict p]) ∧
    (∀ c, classify (env 0) = .fatal c →
      (fetch_with_retry mr st env ks).1 = .fatalErr c ∧
      (fetch_with_retry mr st env ks).2.2 = [] ∧
      (fetch_with_retry mr st env ks).2.1.length = 1) := by
  obtain ⟨m, rfl⟩ : ∃ m, mr = m + 2 := ⟨mr - 2, by omega⟩
  constructor
  · intro c r hc0 hc1
    obtain ⟨p, hp, heq⟩ := get_random_proxy_of_ne st (ks 0) hpool
    refine ⟨p, hp, heq, ?_, ?_⟩
    · simp [fetch_with_retry, fetchAux, heq, hc0, hc1]
    · simp [fetch_with_retry, fetchAux, heq, hc0, hc1, httpProxyDict,
        bne_iff_ne, http_ne_empty p]
  · intro c hc0
    refine ⟨?_, ?_, ?_⟩
    · simp [fetch_with_retry, fetchAux, hc0]
    · simp [fetch_with_retry, fetchAux, hc0]
    · simp [fetch_with_retry, fetchAux, hc0]

/-- C4 witness: singleton pool, `ProxyError` on attempt 1, 200 with body on
attempt 2. -/
theorem c4_retry_policy_witness :
    ∃ p ∈ ({"1.2.3.4:80"} : Finset String),
      get_random_proxy ⟨{"1.2.3.4:80"}, []⟩ 0 = some (httpProxyDict p) ∧
      (fetch_with_retry 2 ⟨{"1.2.3.4:80"}, []⟩
          (fun i => if i = 0 then RawOutcome.exc .proxyError else .resp ⟨200, "x"⟩)
          (fun _ => 0)).1 = .success ⟨200, "x"⟩ ∧
      (fetch_with_retry 2 ⟨{"1.2.3.4:80"}, []⟩
          (fun i => if i = 0 then RawOutcome.exc .proxyError else .resp ⟨200, "x"⟩)
          (fun _ => 0)).2.2 = [httpProxyDict p] :=
  (c4_retry_policy 2 ⟨{"1.2.3.4:80"}, []⟩
      (fun i => if i = 0 then RawOutcome.exc .proxyError else .resp ⟨200, "x"⟩)
      (fun _ => 0) (by omega) (by decide)).1
    "ProxyError" ⟨200, "x"⟩ (by decide) (by decide)

/-- When every attempt classifies as retryable, the loop runs out of budget
and the terminal error carries the last attempt's cause. -/
theorem fetchAux_exhaust (env : Nat → RawOutcome) (ks : Nat → Nat) (c : Nat → String) :
    ∀ n i st last, (∀ j, j < n → classify (env (i + j)) = .retry (c (i + j))) →
      (fetchAux env ks n i st last).1 =
        .exhausted (if n = 0 then last else some (c (i + n - 1))) := by
  intro n
  induction n with
  | zero => intro i st last _; rfl
  | succ n ih =>
    intro i st last h
    have h0 : classify (env i) = .retry (c i) := by simpa using h 0 (by omega)
    have hrec : ∀ j, j < n → classify (env (i + 1 + j)) = .retry (c (i + 1 + j)) := by
      intro j hj
      have hh := h (j + 1) (by omega)
      rwa [show i + (j + 1) = i + 1 + j by omega] at hh
    simp only [fetchAux, h0]
    rw [ih (i + 1) _ (some (c i)) hrec]
    cases n with
    | zero => simp
    | succ n2 =>
      rw [if_neg (Nat.succ_ne_zero n2), if_neg (Nat.succ_ne_zero _),
        show i + 1 + (n2 + 1) - 1 = i + (n2 + 1 + 1) - 1 by omega]

/-- C5: if every one of the `max_retries` attempts fails with a retryable
error, `fetch_with_retry` never returns a response and raises the terminal
`RuntimeError` carrying the last observed failure cause. -/
theorem c5_exhaustion (mr : Nat) (st : PPState) (env : Nat → RawOutcome)
    (ks : Nat → Nat) (c : Nat → String) (hmr : 0 < mr)
    (h : ∀ i, i < mr → classify (env i) = .retry (c i)) :
    (fetch_with_retry mr st env ks).1 = .exhausted (some (c (mr - 1))) ∧
    ∀ r, (fetch_with_retry mr st env ks).1 ≠ .success r := by
  have hx := fetchAux_exhaust env ks c mr 0 st none (fun j hj => by simpa using h j hj)
  rw [if_neg (by omega), Nat.zero_add] at hx
  refine ⟨hx, ?_⟩
  intro r hcontra
  simp only [fetch_with_retry] at hcontra
  rw [hx] at hcontra
  exact FetchResult.noConfusion hcontra

/-- C5 witness: three attempts, `ConnectionError` every time. -/
theorem c5_exhaustion_witness :
    (fetch_with_retry 3 ⟨∅, []⟩ (fun _ => RawOutcome.exc .connectionError)
        (fun _ => 0)).1 = .exhausted (some "ConnectionError") :=
  (c5_exhaustion 3 ⟨∅, []⟩ (fun _ => RawOutcome.exc .connectionError)
      (fun _ => 0) (fun _ => "ConnectionError") (by omega) (by decide)).1

/-- Every whitelisted code is also in the result-exclusion tuple. -/
theorem wl_sub : ∀ x ∈ whitelistT, x ∈ exclusionR := by decide

/-- A foldl preserves any predicate its step preserves. -/
theorem foldl_pres {α β : Type} (f : β → α → β) (P : β → Prop) :
    ∀ (l : List α) (s : β), (∀ x ∈ l, ∀ b, P b → P (f b x)) → P s → P (l.foldl f s) := by
  intro l
  induction l with
  | nil => intro s _ hs; exact hs
  | cons x xs ih =>
    intro s hstep hs
    exact ih (f s x) (fun y hy b hb => hstep y (List.mem_cons_of_mem _ hy) b hb)
      (hstep x (List.mem_cons_self _ _) s hs)

/-- A tournament-level-only line keeps the decoder state free of result
dicts. -/
theorem stepLine_resultsFree (s : DecState) (raw : String)
    (hline : tournamentLevelOnly raw) (h : resultsFreeState s) :
    resultsFreeState (stepLine s raw) := by
  obtain ⟨hcr, hres, hts⟩ := h
  by_cases h1 : (pyStrip raw.data).isEmpty = true
  · simpa [stepLine, h1] using ⟨hcr, hres, hts⟩
  · by_cases h2 : '÷' ∈ pyStrip raw.data
    · have hw : keyOf (pyStrip raw.data) ∈ whitelistT := hline h1 h2
      have hwe : keyOf (pyStrip raw.data) ∈ exclusionR := wl_sub _ hw
      by_cases hza : startsWithSeq ("~ZA".data) (pyStrip raw.data) = true
      · by_cases htr : trnTruthy s.current = true
        · simp only [stepLine, h1, h2, hcr, hres, hw, hwe, hza, htr,
            if_false, if_true, not_true, not_false_iff, List.isEmpty_nil,
            ite_true, ite_false, ite_self, Bool.false_eq_true]
          refine ⟨rfl, rfl, ?_⟩
          intro t ht
          rcases List.mem_append.mp ht with hold | hnew
          · exact hts t hold
          · rw [List.mem_singleton.mp hnew]
            exact hres
        · simp only [stepLine, h1, h2, hcr, hres, hw, hwe, hza, htr,
            if_false, if_true, not_true, not_false_iff, List.isEmpty_nil,
            ite_true, ite_false, ite_self, Bool.false_eq_true]
          exact ⟨rfl, rfl, fun t ht => hts t ht⟩
      · simp only [stepLine, h1, h2, hcr, hres, hw, hwe, hza,
          if_false, if_true, not_true, not_false_iff, List.isEmpty_nil,
          ite_true, ite_false, ite_self, Bool.false_eq_true]
        exact ⟨rfl, rfl, fun t ht => hts t ht⟩
    · simpa [stepLine, h1, h2] using ⟨hcr, hres, hts⟩

/-- C10: for inputs whose every line is tournament-level (or skipped), the
decoder emits only tournaments without a `"results"` key, and whenever the
output is non-empty the normalizer raises the `KeyError` on `raw["results"]`
instead of producing records with empty result arrays. -/
theorem c10_no_results (lines : List String)
    (h1 : ∀ l ∈ lines, tournamentLevelOnly l) :
    (∀ t ∈ convert_to_raw_json lines, t.results = none) ∧
    (convert_to_raw_json lines ≠ [] →
      convert_to_nice_json (convert_to_raw_json lines) = .error "KeyError: results") := by
  have hinv : resultsFreeState (lines.foldl stepLine initState) :=
    foldl_pres stepLine resultsFreeState lines initState
      (fun x hx b hb => stepLine_resultsFree b x (h1 x hx) hb)
      ⟨rfl, rfl, by intro t ht; cases ht⟩
  obtain ⟨hcr, hres, hts⟩ := hinv
  have hall : ∀ t ∈ convert_to_raw_json lines, t.results = none := by
    intro t ht
    simp only [convert_to_raw_json, finishState, hcr, List.isEmpty_nil,
      ite_true, if_true] at ht
    split at ht
    · rcases List.mem_append.mp ht with hold | hnew
      · exact hts t hold
      · rw [List.mem_singleton.mp hnew]
        exact hres
    · exact hts t ht
  refine ⟨hall, ?_⟩
  intro hne
  cases hl : convert_to_raw_json lines with
  | nil => exact absurd hl hne
  | cons t ts =>
    have ht : t.results = none := hall t (by rw [hl]; exact List.mem_cons_self _ _)
    have hn : normalizeTrn t = .error "KeyError: results" := by
      simp only [normalizeTrn, ht]
    simp only [convert_to_nice_json, hn]

/-- C10 witness: a single tournament-level line yields a decoded tournament
with no `"results"` key and a failing normalization. -/
theorem c10_no_results_witness :
    (∀ l ∈ ["~ZA÷A"], tournamentLevelOnly l) ∧
    convert_to_nice_json (convert_to_raw_json ["~ZA÷A"]) = .error "KeyError: results" :=
  ⟨by decide, (c10_no_results ["~ZA÷A"] (by decide)).2 (by decide)⟩

theorem chain_le_last {l : List Nat} {a b : Nat}
    (h : List.Chain' (· < ·) (l ++ [a])) (hab : a ≤ b) :
    List.Chain' (· < ·) (l ++ [b]) := by
  rcases List.chain'_append.mp h with ⟨h1, _, h3⟩
  refine List.chain'_append.mpr ⟨h1, List.chain'_singleton b, ?_⟩
  intro x hx y hy
  have hxa := h3 x hx a rfl
  simp only [List.head?_cons, Option.mem_def, Option.some.injEq] at hy
  omega

theorem chain_snoc {l : List Nat} {a b : Nat}
    (h : List.Chain' (· < ·) (l ++ [a])) (hab : a < b) :
    List.Chain' (· < ·) ((l ++ [a]) ++ [b]) := by
  refine List.chain'_append.mpr ⟨h, List.chain'_singleton b, ?_⟩
  intro x hx y hy
  simp only [List.getLast?_concat, List.head?_cons, Option.mem_def,
    Option.some.injEq] at hx hy
  omega

theorem stepLineI_shape (i : Nat) (s : DecStateI) (raw : String) :
    ((stepLineI i s raw).tournaments = s.tournaments ∧
      (stepLineI i s raw).openIdx = s.openIdx) ∨
    (startsWithSeq ("~ZA".data) (pyStrip raw.data) = true ∧
      (stepLineI i s raw).openIdx = i ∧
      ((trnTruthy s.current = true ∧
        (stepLineI i s raw).tournaments =
          s.tournaments ++ [(s.openIdx,
            if s.currentResult.isEmpty then s.current
            else foldRes s.current s.currentResult)]) ∨
       (¬trnTruthy s.current = true ∧
        (stepLineI i s raw).tournaments = s.tournaments))) := by
  unfold stepLineI
  by_cases h1 : (pyStrip raw.data).isEmpty = true <;>
  by_cases h2 : '÷' ∈ pyStrip raw.data <;>
  by_cases hza : startsWithSeq ("~ZA".data) (pyStrip raw.data) = true <;>
  by_cases htr : trnTruthy s.current = true <;>
  by_cases hw : keyOf (pyStrip raw.data) ∈ whitelistT <;>
  by_cases haa : startsWithSeq ("~AA".data) (pyStrip raw.data) = true <;>
  by_cases hex : keyOf (pyStrip raw.data) ∈ exclusionR <;>
  by_cases hcre : s.currentResult.isEmpty = true <;>
  simp [h1, h2, hza, htr, hw, haa, hex, hcre]

theorem projI_step (i : Nat) (s : DecStateI) (raw : String) :
    projI (stepLineI i s raw) = stepLine (projI s) raw := by
  unfold stepLineI stepLine
  by_cases h1 : (pyStrip raw.data).isEmpty = true <;>
  by_cases h2 : '÷' ∈ pyStrip raw.data <;>
  by_cases hza : startsWithSeq ("~ZA".data) (pyStrip raw.data) = true <;>
  by_cases htr : trnTruthy s.current = true <;>
  by_cases hw : keyOf (pyStrip raw.data) ∈ whitelistT <;>
  by_cases haa : startsWithSeq ("~AA".data) (pyStrip raw.data) = true <;>
  by_cases hex : keyOf (pyStrip raw.data) ∈ exclusionR <;>
  by_cases hcre : s.currentResult.isEmpty = true <;>
  simp [projI, h1, h2, hza, htr, hw, haa, hex, hcre]

theorem projI_fold : ∀ (ls : List String) (i : Nat) (s : DecStateI),
    projI (foldIAux i s ls) = ls.foldl stepLine (projI s) := by
  intro ls
  induction ls with
  | nil => intro i s; rfl
  | cons l ls ih =>
    intro i s
    show projI (foldIAux (i + 1) (stepLineI i s l) ls) = _
    rw [ih (i + 1) (stepLineI i s l), projI_step]
    rfl

theorem projI_finish (s : DecStateI) :
    (finishI s).map Prod.snd = finishState (projI s) := by
  unfold finishI finishState
  by_cases htr : trnTruthy s.current = true <;>
  by_cases hcre : s.currentResult.isEmpty = true <;>
  simp [projI, htr, hcre]

theorem initStateI_inv (lines : List String) : idxInv lines 0 initStateI := by
  refine ⟨?_, Or.inl rfl, fun _ => rfl, ?_, Or.inl rfl⟩
  · simp [initStateI, List.chain'_singleton]
  · intro p hp
    simp [initStateI] at hp

theorem stepLineI_inv (lines : List String) (i : Nat) (s : DecStateI) (raw : String)
    (hline : lines.get? i = some raw) (h : idxInv lines i s) :
    idxInv lines (i + 1) (stepLineI i s raw) := by
  obtain ⟨h1, h2, h3, h4, h5⟩ := h
  rcases stepLineI_shape i s raw with ⟨ht, ho⟩ | ⟨hzb, ho, hcase⟩
  · refine ⟨?_, ?_, fun hi => absurd hi (by omega), ?_, ?_⟩
    · rw [ht, ho]
      exact h1
    · rw [ho]
      rcases h2 with h | h
      · exact Or.inl h
      · exact Or.inr (by omega)
    · rw [ht]
      exact h4
    · rw [ho]
      exact h5
  · have hbi : zaBoundary lines i := ⟨raw, hline, hzb⟩
    have hoi : s.openIdx ≤ i := by
      rcases h2 with h | h <;> omega
    rcases hcase with ⟨htr, ht⟩ | ⟨htr, ht⟩
    · have hlt : s.openIdx < i := by
        rcases h2 with hz | h
        · rcases Nat.eq_zero_or_pos i with hiz | hip
          · subst hiz
            have hcontra := h3 rfl
            rw [htr] at hcontra
            exact absurd hcontra (by simp)
          · omega
        · exact h
      refine ⟨?_, Or.inr (by omega), fun hi => absurd hi (by omega), ?_, ?_⟩
      · rw [ht, ho]
        simp only [List.map_append, List.map_cons, List.map_nil]
        exact chain_snoc h1 hlt
      · rw [ht]
        intro p hp
        rcases List.mem_append.mp hp with hold | hnew
        · exact h4 p hold
        · rw [List.mem_singleton.mp hnew]
          exact h5
      · rw [ho]
        exact Or.inr hbi
    · refine ⟨?_, Or.inr (by omega), fun hi => absurd hi (by omega), ?_, ?_⟩
      · rw [ht, ho]
        exact chain_le_last h1 hoi
      · rw [ht]
        exact h4
      · rw [ho]
        exact Or.inr hbi

theorem foldIAux_inv (lines : List String) :
    ∀ (ls : List String) (i : Nat) (s : DecStateI),
      (∀ k, ls.get? k = lines.get? (i + k)) → idxInv lines i s →
      idxInv lines (i + ls.length) (foldIAux i s ls) := by
  intro ls
  induction ls with
  | nil => intro i s _ h; simpa using h
  | cons l ls ih =>
    intro i s hget h
    have hline : lines.get? i = some l := by
      have hg := hget 0
      simpa using hg.symm
    have hget2 : ∀ k, ls.get? k = lines.get? (i + 1 + k) := by
      intro k
      have hg := hget (k + 1)
      rw [show i + (k + 1) = i + 1 + k by omega] at hg
      simpa using hg
    have hrec := ih (i + 1) (stepLineI i s l) hget2
      (stepLineI_inv lines i s l hline h)
    show idxInv lines (i + (l :: ls).length) (foldIAux (i + 1) (stepLineI i s l) ls)
    rwa [show i + (l :: ls).length = i + 1 + ls.length from by
      rw [List.length_cons]; omega]

theorem stepLine_tours (s : DecState) (raw : String) :
    (stepLine s raw).tournaments = s.tournaments ∨
    ∃ t, (stepLine s raw).tournaments = s.tournaments ++ [t] := by
  unfold stepLine
  by_cases h1 : (pyStrip raw.data).isEmpty = true <;>
  by_cases h2 : '÷' ∈ pyStrip raw.data <;>
  by_cases hza : startsWithSeq ("~ZA".data) (pyStrip raw.data) = true <;>
  by_cases htr : trnTruthy s.current = true <;>
  by_cases hw : keyOf (pyStrip raw.data) ∈ whitelistT <;>
  by_cases haa : startsWithSeq ("~AA".data) (pyStrip raw.data) = true <;>
  by_cases hex : keyOf (pyStrip raw.data) ∈ exclusionR <;>
  by_cases hcre : s.currentResult.isEmpty = true <;>
  simp [h1, h2, hza, htr, hw, haa, hex, hcre]

theorem foldl_tours : ∀ (ls : List String) (s : DecState),
    ∃ r, (ls.foldl stepLine s).tournaments = s.tournaments ++ r := by
  intro ls
  induction ls with
  | nil => intro s; exact ⟨[], by simp⟩
  | cons l ls ih =>
    intro s
    obtain ⟨r1, hr1⟩ := ih (stepLine s l)
    rcases stepLine_tours s l with h | ⟨t, ht⟩
    · exact ⟨r1, by rw [List.foldl_cons, hr1, h]⟩
    · exact ⟨t :: r1, by rw [List.foldl_cons, hr1, ht]; simp⟩

theorem finish_tours (s : DecState) :
    ∃ r, finishState s = s.tournaments ++ r := by
  unfold finishState
  by_cases htr : trnTruthy s.current = true <;>
  by_cases hcre : s.currentResult.isEmpty = true <;>
  simp [htr, hcre]

/-- C7: tournaments appear in the decoder output in the same relative order as
the boundary lines that opened their regions, and no sealed tournament is ever
mutated by a later line: the instrumented decoder agrees with
`convert_to_raw_json`, its recorded opening indices are strictly increasing,
every opening index is a `~ZA`-boundary line of the input (or 0 for the region
running from the start), and after any prefix of the input the already-sealed
tournaments form an unchanged initial segment of the final output. -/
theorem c7_order (lines : List String) :
    ((decodeIdx lines).map Prod.snd = convert_to_raw_json lines) ∧
    List.Chain' (· < ·) ((decodeIdx lines).map Prod.fst) ∧
    (∀ p ∈ decodeIdx lines, p.1 = 0 ∨ zaBoundary lines p.1) ∧
    (∀ xs ys, lines = xs ++ ys →
      ∃ rest, convert_to_raw_json lines =
        (xs.foldl stepLine initState).tournaments ++ rest) := by
  have hinv := foldIAux_inv lines lines 0 initStateI
    (fun k => by simp) (initStateI_inv lines)
  rw [Nat.zero_add] at hinv
  obtain ⟨h1, h2, h3, h4, h5⟩ := hinv
  refine ⟨?_, ?_, ?_, ?_⟩
  · show (finishI (foldIAux 0 initStateI lines)).map Prod.snd = _
    rw [projI_finish, projI_fold]
    rfl
  · show List.Chain' _ ((finishI (foldIAux 0 initStateI lines)).map Prod.fst)
    simp only [finishI]
    by_cases htr : trnTruthy (foldIAux 0 initStateI lines).current = true
    · rw [if_pos htr]
      simp only [List.map_append, List.map_cons, List.map_nil]
      exact h1
    · rw [if_neg htr]
      exact (List.chain'_append.mp h1).1
  · show ∀ p ∈ finishI (foldIAux 0 initStateI lines), _
    simp only [finishI]
    by_cases htr : trnTruthy (foldIAux 0 initStateI lines).current = true
    · rw [if_pos htr]
      intro p hp
      rcases List.mem_append.mp hp with hold | hnew
      · exact h4 p hold
      · rw [List.mem_singleton.mp hnew]
        exact h5
    · rw [if_neg htr]
      exact h4
  · intro xs ys hsplit
    subst hsplit
    obtain ⟨r2, hr2⟩ := finish_tours ((xs ++ ys).foldl stepLine initState)
    obtain ⟨r1, hr1⟩ := foldl_tours ys (xs.foldl stepLine initState)
    refine ⟨r1 ++ r2, ?_⟩
    show finishState ((xs ++ ys).foldl stepLine initState) = _
    rw [hr2, List.foldl_append, hr1, List.append_assoc]

/-- C7 witness: the sealed-region stability applied to a concrete split of a
two-tournament input. -/
theorem c7_order_witness :
    ∃ rest, convert_to_raw_json ["~ZA÷A", "~ZA÷B"] =
      ((["~ZA÷A"] : List String).foldl stepLine initState).tournaments ++ rest :=
  (c7_order ["~ZA÷A", "~ZA÷B"]).2.2.2 ["~ZA÷A"] ["~ZA÷B"] rfl

end GP
